import Mathlib

/-!
Verification of the Boondock-Airband web control panel (src/webapp/server.py),
a shallow embedding of the process supervisor, log ring buffer, log tailer,
configuration lookup and recording routes, together with theorems settling the
specification claims.
-/

namespace Airband

/-!  ## Data model

The Python module keeps three globals: `process` (an optional `subprocess.Popen`
handle), `log_lines` (a `deque(maxlen=200)` of strings) and `log_lock` (a mutex).
A `Popen` handle is modelled by the two observations the code makes of it:
whether `poll()` currently returns `None` (the child is still running), and
whether, once `terminate()` is sent, `wait(timeout=5)` returns before the
timeout expires (so that `kill()` is not needed).  The lock serialises buffer
access; in this sequential embedding buffer operations are atomic functions.
-/

structure Proc where
  alive : Bool
  exitsWithinTimeout : Bool
deriving DecidableEq

structure SupState where
  process : Option Proc
  buf : List String
deriving DecidableEq

/-- Capacity of the deque: `log_lines = deque(maxlen=200)`. -/
def maxLogLines : Nat := 200

/-- Embedding of `deque.append` with `maxlen=200`: when the deque is full the oldest
(leftmost) entry is discarded before the new line is appended on the right. -/
def dequeAppend (buf : List String) (line : String) : List String :=
  if buf.length < maxLogLines then buf ++ [line] else buf.drop 1 ++ [line]

/-- Appending a whole list of lines to the deque, oldest first. -/
def bufFold (b : List String) (ls : List String) : List String :=
  ls.foldl dequeAppend b

/-- Python's whitespace class for `str.strip` / regex `\s` (ASCII part):
space, tab, newline, carriage return, vertical tab, form feed. -/
def isPyWhitespace (c : Char) : Bool :=
  c == ' ' || c == '\t' || c == '\n' || c == '\r' || c == '\x0b' || c == '\x0c'

/-- Python `str.rstrip()`: remove trailing whitespace only. -/
def pyRstrip (s : String) : String :=
  String.mk ((s.toList.reverse.dropWhile isPyWhitespace).reverse)

/-- Python `str.strip()`: remove leading and trailing whitespace. -/
def pyStrip (s : String) : String :=
  String.mk (((s.toList.dropWhile isPyWhitespace).reverse.dropWhile isPyWhitespace).reverse)

/-- Tailer `_read_output(pipe)`: iterate over the lines of the stream until
end-of-stream (`iter(pipe.readline, '')`), appending `line.rstrip()` to
`log_lines` under `log_lock` for each line read.  The stream is modelled as
the list of lines it yields before closing, each still carrying its newline. -/
def _read_output (stream : List String) (buf : List String) : List String :=
  stream.foldl (fun b line => dequeAppend b (pyRstrip line)) buf

/-- Modelled from the claim wording of the spec (for comparison with
`_read_output`): a tailer that appends each line with all surrounding
whitespace removed, i.e. `line.strip()` instead of `line.rstrip()`. -/
def read_output_claim (stream : List String) (buf : List String) : List String :=
  stream.foldl (fun b line => dequeAppend b (pyStrip line)) buf

/-!  ## Process supervisor -/

inductive StartStatus where
  | already_running
  | started
deriving DecidableEq

inductive StopStatus where
  | not_running
  | stopped
deriving DecidableEq

/-- The fixed spawn command: `['rtl_airband', '-f', '-e', '-c', 'airband.conf']`. -/
def airbandCmd : List String := ["rtl_airband", "-f", "-e", "-c", "airband.conf"]

/-- Truth value of `process and process.poll() is None`: a tracked child exists and has not
exited. -/
def trackedAlive (s : SupState) : Bool :=
  match s.process with
  | some p => p.alive
  | none => false

/-- Result of `start_airband`: the new global state, the JSON status, the
command passed to `subprocess.Popen` when a spawn happened (stdout and stderr
are merged into one text stream by the `stderr=subprocess.STDOUT` flag), and
whether a `_read_output` thread was launched on that stream. -/
structure StartResult where
  state : SupState
  status : StartStatus
  spawnedCmd : Option (List String)
  tailerStarted : Bool
deriving DecidableEq

/-- Route `start_airband()`: if a tracked process exists and `poll()` is `None`,
return `already_running` without touching anything; otherwise spawn
`rtl_airband` with the fixed arguments, store the fresh handle in the global,
start the `_read_output` thread on its merged output, and return `started`.
The freshly spawned handle is passed in as `fresh`. -/
def start_airband (s : SupState) (fresh : Proc) : StartResult :=
  if trackedAlive s then
    ⟨s, .already_running, none, false⟩
  else
    ⟨{ s with process := some fresh }, .started, some airbandCmd, true⟩

/-- Result of `stop_airband`: the new global state, the JSON status, and which
signals were sent (`terminate()` always in the running branch; `kill()` only
when `wait(timeout=5)` raised `TimeoutExpired`). -/
structure StopResult where
  state : SupState
  status : StopStatus
  sentTerm : Bool
  sentKill : Bool
deriving DecidableEq

/-- Route `stop_airband()`: if a tracked process exists and `poll()` is `None`,
send `terminate()`, wait up to 5 seconds, `kill()` on timeout, and return
`stopped`; in every other case return `not_running` with no side effect.
After the terminate/kill sequence the child is no longer running. -/
def stop_airband (s : SupState) : StopResult :=
  match s.process with
  | some p =>
    if p.alive then
      ⟨{ s with process := some { p with alive := false } }, .stopped, true,
        !p.exitsWithinTimeout⟩
    else
      ⟨s, .not_running, false, false⟩
  | none => ⟨s, .not_running, false, false⟩

/-- Route `get_logs()`: take the lock, copy the deque into a list, and answer with
that snapshot; the global state is untouched. -/
def get_logs (s : SupState) : List String × SupState :=
  (s.buf, s)

/-!  ## Configuration lookup

`_get_recordings_dir` opens `airband.conf` next to the module and runs
`re.search(r"directory\s*=\s*\"([^\"]+)\"", text)`.  The file is modelled as
either missing (the `FileNotFoundError` branch) or present with its full text.
The regex search is embedded as a scanner that tries to match the pattern at
every position from the left and returns the capture group of the first
position at which the whole pattern matches.
-/

inductive ConfigFile where
  | missing
  | contents (text : String)
deriving DecidableEq

/-- Match a literal sequence of characters at the head of the input, returning
the rest of the input on success. -/
def dropLiteral : List Char → List Char → Option (List Char)
  | [], cs => some cs
  | _ :: _, [] => none
  | p :: ps, c :: cs => if c == p then dropLiteral ps cs else none

/-- Try to match `directory\s*=\s*"([^"]+)"` anchored at the start of `cs`,
returning the capture group (the characters between the quotes). -/
def matchDirectoryAt (cs : List Char) : Option String :=
  match dropLiteral "directory".toList cs with
  | none => none
  | some r1 =>
    match r1.dropWhile isPyWhitespace with
    | '=' :: r2 =>
      match r2.dropWhile isPyWhitespace with
      | '\"' :: r3 =>
        let body := r3.takeWhile (fun c => c != '\"')
        match r3.dropWhile (fun c => c != '\"') with
        | '\"' :: _ => if body.isEmpty then none else some (String.mk body)
        | _ => none
      | _ => none
    | _ => none

/-- Embedding of `re.search`: the capture of the leftmost position at which the pattern
matches, if any. -/
def searchDirectory : List Char → Option String
  | [] => none
  | c :: rest =>
    match matchDirectoryAt (c :: rest) with
    | some d => some d
    | none => searchDirectory rest

/-- Lookup `_get_recordings_dir()`: it answers `None` when the configuration file is missing
(`FileNotFoundError` is caught) or when the pattern does not occur; otherwise
the first capture. -/
def _get_recordings_dir (cfg : ConfigFile) : Option String :=
  match cfg with
  | .missing => none
  | .contents t => searchDirectory t.toList

/-!  ## Recording routes

`os.listdir` returns the names of all entries of a directory, files and
subdirectories alike; a directory entry is modelled as a name plus an
is-a-directory flag.  `sorted` on strings is insertion into lexicographic
order.
-/

structure DirEntry where
  name : String
  isDir : Bool
deriving DecidableEq

/-- Lexicographic comparison of character sequences by code point, the order
Python uses to compare strings. -/
def listCharLe : List Char → List Char → Bool
  | [], _ => true
  | _ :: _, [] => false
  | a :: as, b :: bs =>
    if a.toNat < b.toNat then true
    else if b.toNat < a.toNat then false
    else listCharLe as bs

/-- Python string comparison `s <= t`. -/
def strLe (s t : String) : Bool :=
  listCharLe s.toList t.toList

def insertSorted (x : String) : List String → List String
  | [] => [x]
  | y :: ys => if strLe x y then x :: y :: ys else y :: insertSorted x ys

/-- Python `sorted` on a list of strings. -/
def sortStrings (l : List String) : List String :=
  l.foldr insertSorted []

/-- Python `s.endswith(suffix)`. -/
def strEndsWith (s suffix : String) : Bool :=
  suffix.toList.isSuffixOf s.toList

/-- Python `s.lower()` (ASCII case folding, which is all the extensions need). -/
def strLower (s : String) : String :=
  String.mk (s.toList.map Char.toLower)

/-- Predicate `fname.lower().endswith((".mp3", ".wav", ".ogg"))`. -/
def isAudioName (fname : String) : Bool :=
  let l := strLower fname
  strEndsWith l ".mp3" || strEndsWith l ".wav" || strEndsWith l ".ogg"

/-- The loop body of `index()`: sort all entry names, keep those whose
lowercased name ends in an audio extension.  No check distinguishes files
from subdirectories. -/
def listRecordings (entries : List DirEntry) : List String :=
  (sortStrings (entries.map DirEntry.name)).filter isAudioName

/-- Modelled from the claim wording of the spec (for comparison with
`listRecordings`): keep only non-directory entries whose name has an audio
extension, sorted by name. -/
def listRecordingsClaim (entries : List DirEntry) : List String :=
  (sortStrings ((entries.filter (fun e => !e.isDir)).map DirEntry.name)).filter
    isAudioName

/-- Route `index()`: the list of recording names handed to the template.  Empty
unless a directory is configured and `os.path.isdir` holds of it; `dirIsDir`
is that filesystem fact and `entries` is the listing of the directory. -/
def index (cfg : ConfigFile) (dirIsDir : Bool) (entries : List DirEntry) :
    List String :=
  match _get_recordings_dir cfg with
  | some _ => if dirIsDir then listRecordings entries else []
  | none => []

/-- Response of `serve_recording`: either `send_from_directory(dir, name)` or
the plain-text 404. -/
inductive ServeResult where
  | file (dir : String) (name : String)
  | notFoundText (body : String) (code : Nat)
deriving DecidableEq

/-- Route `serve_recording(filename)`: stream the file from the configured directory,
or the fixed plain-text 404 when no directory is configured. -/
def serve_recording (cfg : ConfigFile) (filename : String) : ServeResult :=
  match _get_recordings_dir cfg with
  | some d => .file d filename
  | none => .notFoundText "Recording directory not configured" 404

/-!  ## Helper lemmas about the ring buffer -/

theorem dequeAppend_length_le {b : List String} (x : String) (h : b.length ≤ 200) :
    (dequeAppend b x).length ≤ 200 := by
  unfold dequeAppend maxLogLines
  split
  · simp; omega
  · simp; omega

/-- The closed form of repeated deque appends: the result is the suffix of the
input sequence that fits in the 200-line window. -/
theorem bufFold_eq_drop : ∀ (L b : List String), b.length ≤ 200 →
    bufFold b L = (b ++ L).drop (b.length + L.length - 200)
  | [], b, h => by
    have h0 : b.length + ([] : List String).length - 200 = 0 := by
      simp only [List.length_nil]
      omega
    rw [h0]
    simp [bufFold]
  | x :: L, b, h => by
    have hstep : bufFold b (x :: L) = bufFold (dequeAppend b x) L := rfl
    have hlen : (dequeAppend b x).length ≤ 200 := dequeAppend_length_le x h
    rw [hstep, bufFold_eq_drop L (dequeAppend b x) hlen]
    by_cases hb : b.length < 200
    · have he : dequeAppend b x = b ++ [x] := by
        simp [dequeAppend, maxLogLines, hb]
      rw [he]
      have hl : (b ++ [x]) ++ L = b ++ (x :: L) := by simp
      have hidx : (b ++ [x]).length + L.length - 200 =
          b.length + (x :: L).length - 200 := by
        simp only [List.length_append, List.length_cons, List.length_nil]
        omega
      rw [hl, hidx]
    · have hb200 : b.length = 200 := by omega
      have he : dequeAppend b x = b.drop 1 ++ [x] := by
        simp [dequeAppend, maxLogLines, hb]
      rw [he]
      have h1 : (b.drop 1 ++ [x]) ++ L = b.drop 1 ++ (x :: L) := by simp
      have h2 : b.drop 1 ++ (x :: L) = (b ++ (x :: L)).drop 1 := by
        rw [List.drop_append_of_le_length (by omega)]
      rw [h1, h2, List.drop_drop]
      have hidx : 1 + ((b.drop 1 ++ [x]).length + L.length - 200) =
          b.length + (x :: L).length - 200 := by
        simp only [List.length_append, List.length_cons, List.length_nil,
          List.length_drop]
        omega
      rw [hidx]

theorem bufFold_nil_eq (L : List String) :
    bufFold [] L = L.drop (L.length - 200) := by
  have h := bufFold_eq_drop L [] (by simp)
  simpa using h

theorem bufFold_nil_length_le (L : List String) :
    (bufFold [] L).length ≤ 200 := by
  rw [bufFold_nil_eq]
  simp
  omega

/-- When everything fits in the window, appending never evicts. -/
theorem bufFold_append_of_le {b L : List String} (h : b.length + L.length ≤ 200) :
    bufFold b L = b ++ L := by
  rw [bufFold_eq_drop L b (by omega)]
  have : b.length + L.length - 200 = 0 := by omega
  rw [this, List.drop_zero]

theorem mem_bufFold_nil {x : String} {L : List String}
    (h : x ∈ bufFold [] L) : x ∈ L := by
  rw [bufFold_nil_eq] at h
  exact List.mem_of_mem_drop h

/-- The tailer is the buffer fold over the right-stripped lines. -/
theorem read_output_eq_bufFold : ∀ (stream b : List String),
    _read_output stream b = bufFold b (stream.map pyRstrip)
  | [], _ => rfl
  | line :: rest, b => by
    have h1 : _read_output (line :: rest) b =
        _read_output rest (dequeAppend b (pyRstrip line)) := rfl
    rw [h1, read_output_eq_bufFold rest]
    rfl

theorem dequeAppend_getLast (b : List String) (l : String) :
    (dequeAppend b l).getLast? = some l := by
  unfold dequeAppend
  split
  · exact List.getLast?_concat b
  · exact List.getLast?_concat (b.drop 1)

theorem dropWhile_dropWhile (p : Char → Bool) (l : List Char) :
    (l.dropWhile p).dropWhile p = l.dropWhile p := by
  induction l with
  | nil => rfl
  | cons c cs ih =>
    by_cases h : p c
    · simp [List.dropWhile_cons, h, ih]
    · simp [List.dropWhile_cons, h]

theorem pyRstrip_idem (s : String) : pyRstrip (pyRstrip s) = pyRstrip s := by
  unfold pyRstrip
  congr 1
  simp [dropWhile_dropWhile]

/-!  ## Claim theorems: supervisor and buffer -/

/-- C1: when a tracked child exists and has not exited, start returns
already_running and leaves the whole state (handle and log buffer) unchanged;
otherwise it spawns rtl_airband with the fixed arguments, stores the new
handle, leaves the buffer alone, launches the log tailer, and returns
started. -/
theorem start_airband_spec (s : SupState) (fresh : Proc) :
    ((∃ p, s.process = some p ∧ p.alive = true) →
      start_airband s fresh = ⟨s, .already_running, none, false⟩) ∧
    ((∀ p, s.process = some p → p.alive = false) →
      (start_airband s fresh).status = .started ∧
      (start_airband s fresh).state.process = some fresh ∧
      (start_airband s fresh).state.buf = s.buf ∧
      (start_airband s fresh).spawnedCmd = some airbandCmd ∧
      (start_airband s fresh).tailerStarted = true) := by
  constructor
  · rintro ⟨p, hp, ha⟩
    simp [start_airband, trackedAlive, hp, ha]
  · intro h
    have hta : trackedAlive s = false := by
      unfold trackedAlive
      cases hs : s.process with
      | none => rfl
      | some p => exact h p hs
    simp [start_airband, hta]

theorem start_airband_spec_witness :
    start_airband ⟨some ⟨true, true⟩, ["old"]⟩ ⟨true, true⟩ =
      ⟨⟨some ⟨true, true⟩, ["old"]⟩, .already_running, none, false⟩ ∧
    (start_airband ⟨none, ["old"]⟩ ⟨true, true⟩).status = .started := by
  refine ⟨(start_airband_spec ⟨some ⟨true, true⟩, ["old"]⟩ ⟨true, true⟩).1
    ⟨⟨true, true⟩, rfl, rfl⟩, ?_⟩
  exact ((start_airband_spec ⟨none, ["old"]⟩ ⟨true, true⟩).2 (by simp)).1

/-- C2: with no tracked process, or a tracked process that has already exited,
stop returns not_running and changes nothing; with a live tracked process it
sends terminate, waits up to five seconds, sends kill exactly when the wait
timed out, returns stopped in both cases, leaves the buffer alone, and the
child is no longer running afterwards. -/
theorem stop_airband_spec (s : SupState) :
    ((s.process = none ∨ ∃ p, s.process = some p ∧ p.alive = false) →
      stop_airband s = ⟨s, .not_running, false, false⟩) ∧
    (∀ p, s.process = some p → p.alive = true →
      (stop_airband s).status = .stopped ∧
      (stop_airband s).sentTerm = true ∧
      (stop_airband s).sentKill = !p.exitsWithinTimeout ∧
      (stop_airband s).state.process = some { p with alive := false } ∧
      (stop_airband s).state.buf = s.buf) := by
  constructor
  · rintro (hn | ⟨p, hp, ha⟩)
    · simp [stop_airband, hn]
    · simp [stop_airband, hp, ha]
  · intro p hp ha
    simp [stop_airband, hp, ha]

theorem stop_airband_spec_witness :
    stop_airband ⟨none, ["old"]⟩ = ⟨⟨none, ["old"]⟩, .not_running, false, false⟩ ∧
    (stop_airband ⟨some ⟨true, false⟩, []⟩).status = .stopped ∧
    (stop_airband ⟨some ⟨true, false⟩, []⟩).sentKill = true := by
  refine ⟨(stop_airband_spec ⟨none, ["old"]⟩).1 (Or.inl rfl), ?_, ?_⟩
  · exact ((stop_airband_spec ⟨some ⟨true, false⟩, []⟩).2 ⟨true, false⟩ rfl rfl).1
  · exact ((stop_airband_spec ⟨some ⟨true, false⟩, []⟩).2 ⟨true, false⟩ rfl rfl).2.2.1

/-- C3: starting from the empty buffer, any sequence of appended lines leaves
at most 200 lines, in insertion order with the oldest evicted first: the
buffer is exactly the last 200 lines appended; in particular after 250 lines
the first 50 are gone (absent entirely when the lines are distinct) and the
last 200 stand in order. -/
theorem log_ring_buffer_spec (L : List String) :
    (bufFold [] L).length ≤ 200 ∧
    bufFold [] L = L.drop (L.length - 200) ∧
    (L.length = 250 →
      bufFold [] L = L.drop 50 ∧
      (L.Nodup → ∀ x ∈ L.take 50, x ∉ bufFold [] L)) := by
  have h0 := bufFold_nil_eq L
  refine ⟨bufFold_nil_length_le L, h0, ?_⟩
  intro h250
  have h50 : bufFold [] L = L.drop 50 := by rw [h0, h250]
  refine ⟨h50, ?_⟩
  intro hnd x hxtake hxin
  rw [h50] at hxin
  have hsplit : L.take 50 ++ L.drop 50 = L := List.take_append_drop 50 L
  have hnd2 : (L.take 50 ++ L.drop 50).Nodup := by rw [hsplit]; exact hnd
  have hdisj := (List.nodup_append.mp hnd2).2.2
  exact hdisj hxtake hxin

theorem log_ring_buffer_spec_witness :
    ((List.range 250).map (fun n => toString n)).length = 250 ∧
    bufFold [] ((List.range 250).map (fun n => toString n)) =
      ((List.range 250).map (fun n => toString n)).drop 50 := by
  have h : ((List.range 250).map (fun n => toString n)).length = 250 := by simp
  exact ⟨h, ((log_ring_buffer_spec ((List.range 250).map (fun n => toString n))).2.2 h).1⟩

/-- C5: from the not-running state, start then stop then stop answer started,
stopped, not_running; and in general, any stop that answered stopped leaves a
state in which an immediately following stop answers not_running, whether the
child went down gracefully or was killed. -/
theorem start_stop_stop_spec (buf : List String) (fresh : Proc)
    (hfresh : fresh.alive = true) :
    (start_airband ⟨none, buf⟩ fresh).status = .started ∧
    (stop_airband (start_airband ⟨none, buf⟩ fresh).state).status = .stopped ∧
    (stop_airband (stop_airband
      (start_airband ⟨none, buf⟩ fresh).state).state).status = .not_running ∧
    (∀ s : SupState, (stop_airband s).status = .stopped →
      (stop_airband (stop_airband s).state).status = .not_running) := by
  have hgen : ∀ s : SupState, (stop_airband s).status = .stopped →
      (stop_airband (stop_airband s).state).status = .not_running := by
    intro s hs
    cases hp : s.process with
    | none => simp [stop_airband, hp] at hs
    | some p =>
      by_cases ha : p.alive
      · simp [stop_airband, hp, ha]
      · simp [stop_airband, hp, ha] at hs
  have h1 : start_airband ⟨none, buf⟩ fresh =
      ⟨⟨some fresh, buf⟩, .started, some airbandCmd, true⟩ := by
    simp [start_airband, trackedAlive]
  have h2 : (stop_airband ⟨some fresh, buf⟩).status = .stopped := by
    simp [stop_airband, hfresh]
  refine ⟨by rw [h1], by rw [h1]; exact h2, ?_, hgen⟩
  rw [h1]
  exact hgen ⟨some fresh, buf⟩ h2

theorem start_stop_stop_spec_witness :
    (start_airband ⟨none, []⟩ ⟨true, true⟩).status = .started ∧
    (stop_airband (start_airband ⟨none, []⟩ ⟨true, true⟩).state).status = .stopped ∧
    (stop_airband (stop_airband
      (start_airband ⟨none, []⟩ ⟨true, true⟩).state).state).status = .not_running := by
  have h := start_stop_stop_spec [] ⟨true, true⟩ (by decide)
  exact ⟨h.1, h.2.1, h.2.2.1⟩

/-- C6: the logs route answers with exactly the buffer contents in order
(most recent last, since appends happen on the right), at most 200 entries
for any buffer the tailer can have produced, and leaves the state, and in
particular the buffer, untouched. -/
theorem get_logs_spec (s : SupState) :
    (get_logs s).1 = s.buf ∧
    (get_logs s).2 = s ∧
    (∀ L, s.buf = bufFold [] L → (get_logs s).1.length ≤ 200) ∧
    (∀ l, (get_logs { s with buf := dequeAppend s.buf l }).1.getLast? = some l) := by
  refine ⟨rfl, rfl, ?_, ?_⟩
  · intro L hL
    show s.buf.length ≤ 200
    rw [hL]
    exact bufFold_nil_length_le L
  · intro l
    exact dequeAppend_getLast s.buf l

theorem get_logs_spec_witness :
    (get_logs ⟨none, bufFold [] ["a", "b"]⟩).1.length ≤ 200 ∧
    (get_logs ⟨none, dequeAppend ["a"] "b"⟩).1.getLast? = some "b" := by
  refine ⟨(get_logs_spec ⟨none, bufFold [] ["a", "b"]⟩).2.2.1 ["a", "b"] rfl, ?_⟩
  exact (get_logs_spec ⟨none, ["a"]⟩).2.2.2 "b"

/-- C10: neither start nor stop touches the log buffer, so after a restart the
lines of the earlier run are still there, and as long as the window is not
exceeded the tailer of the new run appends its lines strictly after them. -/
theorem logs_survive_restart (s : SupState) (fresh : Proc) (newLines : List String)
    (h : s.buf.length + newLines.length ≤ 200) :
    (start_airband s fresh).state.buf = s.buf ∧
    (stop_airband s).state.buf = s.buf ∧
    _read_output newLines (start_airband s fresh).state.buf =
      s.buf ++ newLines.map pyRstrip := by
  have hstart : (start_airband s fresh).state.buf = s.buf := by
    unfold start_airband
    split <;> rfl
  have hstop : (stop_airband s).state.buf = s.buf := by
    unfold stop_airband
    cases s.process with
    | none => rfl
    | some p =>
      dsimp only
      split <;> rfl
  refine ⟨hstart, hstop, ?_⟩
  rw [hstart, read_output_eq_bufFold]
  exact bufFold_append_of_le (by simpa using h)

theorem logs_survive_restart_witness :
    _read_output ["new line\n"] (start_airband ⟨none, ["old line"]⟩ ⟨true, true⟩).state.buf =
      ["old line"] ++ (["new line\n"].map pyRstrip) := by
  exact (logs_survive_restart ⟨none, ["old line"]⟩ ⟨true, true⟩ ["new line\n"]
    (by decide)).2.2

/-!  ## Helper lemmas about the configuration scanner -/

theorem searchDirectory_none : ∀ cs : List Char, searchDirectory cs = none →
    ∀ i, matchDirectoryAt (cs.drop i) = none
  | [], _, i => by
    rw [List.drop_nil]
    decide
  | c :: rest, h, i => by
    have hsplit : matchDirectoryAt (c :: rest) = none ∧ searchDirectory rest = none := by
      unfold searchDirectory at h
      cases hm : matchDirectoryAt (c :: rest) with
      | some d => rw [hm] at h; exact absurd h (by simp)
      | none => rw [hm] at h; exact ⟨rfl, h⟩
    cases i with
    | zero => exact hsplit.1
    | succ k =>
      rw [List.drop_succ_cons]
      exact searchDirectory_none rest hsplit.2 k

theorem searchDirectory_some_first : ∀ (cs : List Char) (d : String),
    searchDirectory cs = some d →
    ∃ i, matchDirectoryAt (cs.drop i) = some d ∧
      ∀ j, j < i → matchDirectoryAt (cs.drop j) = none
  | [], d, h => by simp [searchDirectory] at h
  | c :: rest, d, h => by
    cases hm : matchDirectoryAt (c :: rest) with
    | some e =>
      have he : e = d := by
        unfold searchDirectory at h
        rw [hm] at h
        exact Option.some.inj h
      subst he
      exact ⟨0, hm, fun j hj => absurd hj (Nat.not_lt_zero j)⟩
    | none =>
      have hrest : searchDirectory rest = some d := by
        unfold searchDirectory at h
        rwa [hm] at h
      obtain ⟨i, hi, hlt⟩ := searchDirectory_some_first rest d hrest
      refine ⟨i + 1, by rwa [List.drop_succ_cons], ?_⟩
      intro j hj
      cases j with
      | zero => exact hm
      | succ k =>
        rw [List.drop_succ_cons]
        exact hlt k (by omega)

/-!  ## Claim theorems: configuration and recordings -/

/-- C7: the recordings-directory lookup answers None, never an exception, when
the configuration file is missing; when the file is readable, an answer of
None means the directory pattern matches at no position, and an answer of some
path is the capture of the leftmost position at which the pattern
`directory\s*=\s*"([^"]+)"` matches, i.e. the first assignment in the file. -/
theorem get_recordings_dir_spec (t : String) :
    _get_recordings_dir .missing = none ∧
    (_get_recordings_dir (.contents t) = none →
      ∀ i, matchDirectoryAt (t.toList.drop i) = none) ∧
    (∀ d, _get_recordings_dir (.contents t) = some d →
      ∃ i, matchDirectoryAt (t.toList.drop i) = some d ∧
        ∀ j, j < i → matchDirectoryAt (t.toList.drop j) = none) := by
  refine ⟨rfl, ?_, ?_⟩
  · intro h
    exact searchDirectory_none t.toList h
  · intro d h
    exact searchDirectory_some_first t.toList d h

theorem get_recordings_dir_spec_witness :
    (∀ i, matchDirectoryAt (("x = 1").toList.drop i) = none) ∧
    (∃ i, matchDirectoryAt (("a directory = \"/rec\"").toList.drop i) = some "/rec" ∧
      ∀ j, j < i → matchDirectoryAt (("a directory = \"/rec\"").toList.drop j) = none) := by
  refine ⟨(get_recordings_dir_spec "x = 1").2.1 (by decide), ?_⟩
  exact (get_recordings_dir_spec "a directory = \"/rec\"").2.2 "/rec" (by decide)

/-- C9: when no directory is configured (missing file or no assignment in it),
serving a recording answers the fixed plain-text 404; when a directory is
configured, the named file is served from that directory. -/
theorem serve_recording_spec (cfg : ConfigFile) (filename : String) :
    (_get_recordings_dir cfg = none →
      serve_recording cfg filename =
        .notFoundText "Recording directory not configured" 404) ∧
    (∀ d, _get_recordings_dir cfg = some d →
      serve_recording cfg filename = .file d filename) := by
  constructor
  · intro h
    simp [serve_recording, h]
  · intro d h
    simp [serve_recording, h]

theorem serve_recording_spec_witness :
    serve_recording (.contents "x = 1") "a.mp3" =
      .notFoundText "Recording directory not configured" 404 ∧
    serve_recording (.contents "directory = \"/rec\"") "a.mp3" = .file "/rec" "a.mp3" := by
  refine ⟨(serve_recording_spec (.contents "x = 1") "a.mp3").1 (by decide), ?_⟩
  exact (serve_recording_spec (.contents "directory = \"/rec\"") "a.mp3").2 "/rec" (by decide)

/-!  ## Helper lemmas about the sort order -/

theorem listCharLe_trans : ∀ as bs cs : List Char,
    listCharLe as bs = true → listCharLe bs cs = true → listCharLe as cs = true
  | [], _, _, _, _ => rfl
  | _ :: _, [], _, h, _ => by simp [listCharLe] at h
  | _ :: _, _ :: _, [], _, h => by simp [listCharLe] at h
  | a :: as, b :: bs, c :: cs, h1, h2 => by
    simp only [listCharLe] at h1 h2 ⊢
    rcases Nat.lt_trichotomy a.toNat b.toNat with hab | hab | hab <;>
      rcases Nat.lt_trichotomy b.toNat c.toNat with hbc | hbc | hbc <;>
        split_ifs at h1 h2 ⊢ <;>
          first
            | rfl
            | omega
            | exact listCharLe_trans as bs cs h1 h2

theorem listCharLe_total : ∀ as bs : List Char,
    listCharLe as bs = true ∨ listCharLe bs as = true
  | [], _ => Or.inl rfl
  | _ :: _, [] => Or.inr rfl
  | a :: as, b :: bs => by
    simp only [listCharLe]
    rcases Nat.lt_trichotomy a.toNat b.toNat with h | h | h
    · left
      rw [if_pos h]
    · have h1 : ¬a.toNat < b.toNat := by omega
      have h2 : ¬b.toNat < a.toNat := by omega
      rcases listCharLe_total as bs with ih | ih
      · left
        rw [if_neg h1, if_neg h2]
        exact ih
      · right
        rw [if_neg h2, if_neg h1]
        exact ih
    · right
      rw [if_pos h]

theorem strLe_trans {a b c : String} (h1 : strLe a b = true) (h2 : strLe b c = true) :
    strLe a c = true :=
  listCharLe_trans a.toList b.toList c.toList h1 h2

theorem strLe_total (a b : String) : strLe a b = true ∨ strLe b a = true :=
  listCharLe_total a.toList b.toList

theorem mem_insertSorted (x y : String) : ∀ l : List String,
    y ∈ insertSorted x l ↔ y = x ∨ y ∈ l
  | [] => by simp [insertSorted]
  | z :: zs => by
    unfold insertSorted
    split
    · simp
    · rw [List.mem_cons, mem_insertSorted x y zs, List.mem_cons]
      tauto

theorem pairwise_insertSorted (x : String) : ∀ l : List String,
    l.Pairwise (fun a b => strLe a b = true) →
    (insertSorted x l).Pairwise (fun a b => strLe a b = true)
  | [], _ => by simp [insertSorted]
  | y :: ys, h => by
    rcases List.pairwise_cons.mp h with ⟨hy, hys⟩
    unfold insertSorted
    split
    · rename_i hxy
      refine List.pairwise_cons.mpr ⟨?_, h⟩
      intro z hz
      rcases List.mem_cons.mp hz with rfl | hz
      · exact hxy
      · exact strLe_trans hxy (hy z hz)
    · rename_i hxy
      refine List.pairwise_cons.mpr ⟨?_, pairwise_insertSorted x ys hys⟩
      intro z hz
      rcases (mem_insertSorted x z ys).mp hz with rfl | hz
      · rcases strLe_total z y with h' | h'
        · exact absurd h' hxy
        · exact h'
      · exact hy z hz

theorem mem_sortStrings (l : List String) (x : String) :
    x ∈ sortStrings l ↔ x ∈ l := by
  induction l with
  | nil => simp [sortStrings]
  | cons y ys ih =>
    have hstep : sortStrings (y :: ys) = insertSorted y (sortStrings ys) := rfl
    rw [hstep, mem_insertSorted, ih, List.mem_cons]

theorem pairwise_sortStrings (l : List String) :
    (sortStrings l).Pairwise (fun a b => strLe a b = true) := by
  induction l with
  | nil => simp [sortStrings]
  | cons y ys ih => exact pairwise_insertSorted y (sortStrings ys) ih

/-!  ## Claim theorems: recordings listing and tailer trimming -/

/-- C4 counterexample: with a configured directory whose listing holds one
entry, a subdirectory named sub.mp3, the listing handed to the page is
["sub.mp3"]: the subdirectory is included, against the claim that
subdirectories are excluded (the claim-side listing is empty there). -/
theorem index_subdir_counterexample :
    index (.contents "directory = \"/rec\"") true [⟨"sub.mp3", true⟩] = ["sub.mp3"] ∧
    listRecordingsClaim [⟨"sub.mp3", true⟩] = [] ∧
    index (.contents "directory = \"/rec\"") true [⟨"sub.mp3", true⟩] ≠
      listRecordingsClaim [⟨"sub.mp3", true⟩] := by
  exact ⟨by decide, by decide, by decide⟩

/-- C4 amended: when a directory is configured and exists, the listing on
GET / consists of exactly the names of its entries, files and subdirectories
alike, whose lowercased name ends in .mp3, .wav or .ogg, in ascending string
order; entries are not checked for being regular files. -/
theorem index_spec (cfg : ConfigFile) (dirIsDir : Bool) (entries : List DirEntry) :
    (∀ d, _get_recordings_dir cfg = some d → dirIsDir = true →
      index cfg dirIsDir entries = listRecordings entries) ∧
    (listRecordings entries).Pairwise (fun a b => strLe a b = true) ∧
    (∀ x, x ∈ listRecordings entries ↔
      x ∈ entries.map DirEntry.name ∧ isAudioName x = true) := by
  refine ⟨?_, ?_, ?_⟩
  · intro d hd hdir
    simp [index, hd, hdir]
  · exact List.Pairwise.sublist (List.filter_sublist _) (pairwise_sortStrings _)
  · intro x
    rw [listRecordings, List.mem_filter, mem_sortStrings]

theorem index_spec_witness :
    index (.contents "directory = \"/rec\"") true [⟨"b.MP3", false⟩, ⟨"a.wav", false⟩] =
      listRecordings [⟨"b.MP3", false⟩, ⟨"a.wav", false⟩] ∧
    ("a.wav" ∈ listRecordings [⟨"b.MP3", false⟩, ⟨"a.wav", false⟩] ↔
      "a.wav" ∈ ([⟨"b.MP3", false⟩, ⟨"a.wav", false⟩] : List DirEntry).map DirEntry.name ∧
        isAudioName "a.wav" = true) := by
  refine ⟨(index_spec (.contents "directory = \"/rec\"") true
    [⟨"b.MP3", false⟩, ⟨"a.wav", false⟩]).1 "/rec" (by decide) rfl, ?_⟩
  exact (index_spec (.contents "directory = \"/rec\"") true
    [⟨"b.MP3", false⟩, ⟨"a.wav", false⟩]).2.2 "a.wav"

/-- C8 counterexample: on the line "  x" followed by a newline, the tailer
appends "  x" with the leading whitespace kept, while the claim that
whitespace is removed would give "x": only trailing whitespace is stripped. -/
theorem read_output_strip_counterexample :
    _read_output ["  x\n"] [] = ["  x"] ∧
    read_output_claim ["  x\n"] [] = ["x"] ∧
    _read_output ["  x\n"] [] ≠ read_output_claim ["  x\n"] [] := by
  exact ⟨by decide, by decide, by decide⟩

/-- C8 amended: for every line read from the merged output stream until
end-of-stream, the tailer appends the line with its trailing whitespace
(including the newline) removed and its leading whitespace kept, under the
shared lock, as the ring-buffer fold of the right-stripped lines; within the
window the buffer is exactly the right-stripped lines in order, and no
buffered line carries trailing whitespace.  The fold over the finite stream
terminates when the stream closes. -/
theorem read_output_spec (stream buf : List String) :
    _read_output stream buf = bufFold buf (stream.map pyRstrip) ∧
    (stream.length ≤ 200 → _read_output stream [] = stream.map pyRstrip) ∧
    (∀ x ∈ _read_output stream [], pyRstrip x = x) := by
  refine ⟨read_output_eq_bufFold stream buf, ?_, ?_⟩
  · intro h
    rw [read_output_eq_bufFold]
    have := bufFold_append_of_le (b := []) (L := stream.map pyRstrip) (by simpa using h)
    simpa using this
  · intro x hx
    rw [read_output_eq_bufFold] at hx
    have hmem : x ∈ stream.map pyRstrip := mem_bufFold_nil hx
    obtain ⟨y, _, hy⟩ := List.mem_map.mp hmem
    rw [← hy]
    exact pyRstrip_idem y

theorem read_output_spec_witness :
    _read_output ["a \n", "b\n"] [] = (["a \n", "b\n"].map pyRstrip) ∧
    pyRstrip "a" = "a" := by
  refine ⟨(read_output_spec ["a \n", "b\n"] []).2.1 (by decide), ?_⟩
  exact (read_output_spec ["a \n", "b\n"] []).2.2 "a" (by decide)

end Airband
